import Mathlib

/-!
Verification development for the p5-livesketch core: the task-dependency
engine (`src/lib/Task.js`), the callable wrapper it is built on
(`src/lib/Callable.js`), and the stateful console logger
(`src/lib/Logger.js`).  JavaScript objects are shallowly embedded as Lean
structures; console output is modelled as a list of emitted records
returned alongside the updated state; the single-threaded cooperative
schedule of the Node event loop is modelled as a deterministic big-step
interpreter with a fuel bound.
-/

set_option linter.unusedVariables false
set_option linter.unusedSectionVars false

namespace P5Live

/-- A console output record: the console method tag (`log`, `debug`, `error`,
`warn`) together with its argument list, as stored by `Logger.buffer`. -/
structure OutRec (A : Type) where
  method : String
  args : List A
  deriving Repr, DecidableEq

/-- The `modes` constant object of `Logger.js`. -/
inductive Mode
  | NORMAL
  | SILENT
  | BUFFER
  deriving Repr, DecidableEq

/-- Logger state: the `_mode` field and the `_buffers` queue. -/
structure Logger (A : Type) where
  _mode : Mode
  _buffers : List (OutRec A)
  deriving Repr, DecidableEq

namespace Logger

variable {A : Type}

/-- `get isNormal()`. -/
def isNormal (l : Logger A) : Bool := decide (l._mode = Mode.NORMAL)

/-- `get isSilent()`. -/
def isSilent (l : Logger A) : Bool := decide (l._mode = Mode.SILENT)

/-- `get isBuffering()`. -/
def isBuffering (l : Logger A) : Bool := decide (l._mode = Mode.BUFFER)

/-- `get hasBuffer()`: whether `_buffers.length > 0`. -/
def hasBuffer (l : Logger A) : Bool := decide (0 < l._buffers.length)

/-- `clearBuffers()`. -/
def clearBuffers (l : Logger A) : Logger A := { l with _buffers := [] }

/-- `suppress(buffer = false)`: mode becomes BUFFER when `buf` is true,
SILENT otherwise. -/
def suppress (l : Logger A) (buf : Bool) : Logger A :=
  { l with _mode := if buf then Mode.BUFFER else Mode.SILENT }

/-- `buffer(method, ...args)`: append one record to the queue. -/
def buffer (l : Logger A) (method : String) (args : List A) : Logger A :=
  { l with _buffers := l._buffers ++ [⟨method, args⟩] }

/-- `_do(method, ...args)`: the direct write.  It writes to the console
unconditionally (the emitted record is the second component) and returns
`this` unchanged. -/
def _do (l : Logger A) (method : String) (args : List A) :
    Logger A × List (OutRec A) :=
  (l, [⟨method, args⟩])

/-- `unbuffer()`: when the buffer is empty return `false` (third component);
otherwise `pop()` the most recently added record and emit it via `_do`. -/
def unbuffer (l : Logger A) : Logger A × List (OutRec A) × Bool :=
  if l.hasBuffer then
    match l._buffers.getLast? with
    | some b => ({ l with _buffers := l._buffers.dropLast }, [b], true)
    | none => (l, [], false)
  else (l, [], false)

/-- `flush()`: when the buffer is empty return `false`; otherwise emit every
queued record via `_do` in insertion order, then `clearBuffers()`. -/
def flush (l : Logger A) : Logger A × List (OutRec A) × Bool :=
  if l.hasBuffer then (l.clearBuffers, l._buffers, true)
  else (l, [], false)

/-- `unsuppress(flush = true)`: mode becomes NORMAL; when `fl` is true the
buffer is flushed. -/
def unsuppress (l : Logger A) (fl : Bool) : Logger A × List (OutRec A) :=
  let l1 : Logger A := { l with _mode := Mode.NORMAL }
  if fl then
    let r := l1.flush
    (r.1, r.2.1)
  else (l1, [])

/-- `do(method, ...args)`: the routed write (`do` is a Lean keyword, hence the
trailing underscore).  NORMAL writes through `_do`, BUFFER enqueues via
`buffer`, SILENT discards. -/
def do_ (l : Logger A) (method : String) (args : List A) :
    Logger A × List (OutRec A) :=
  if l.isNormal then l._do method args
  else if l.isBuffering then (l.buffer method args, [])
  else (l, [])

/-- `log(...args)`. -/
def log (l : Logger A) (args : List A) : Logger A × List (OutRec A) :=
  l.do_ "log" args

/-- `_log(...args)`. -/
def _log (l : Logger A) (args : List A) : Logger A × List (OutRec A) :=
  l._do "log" args

/-- `debug(...args)`. -/
def debug (l : Logger A) (args : List A) : Logger A × List (OutRec A) :=
  l.do_ "debug" args

/-- `_debug(...args)`. -/
def _debug (l : Logger A) (args : List A) : Logger A × List (OutRec A) :=
  l._do "debug" args

/-- `error(...args)`. -/
def error (l : Logger A) (args : List A) : Logger A × List (OutRec A) :=
  l.do_ "error" args

/-- `_error(...args)`. -/
def _error (l : Logger A) (args : List A) : Logger A × List (OutRec A) :=
  l._do "error" args

/-- `warn(...args)`. -/
def warn (l : Logger A) (args : List A) : Logger A × List (OutRec A) :=
  l.do_ "warn" args

/-- `_warn(...args)`. -/
def _warn (l : Logger A) (args : List A) : Logger A × List (OutRec A) :=
  l._do "warn" args

end Logger

/-! Shallow embedding of `src/lib/Task.js`.  A task is a record of the
instance fields; the dependency list holds heap indices, modelling JS object
references, and a heap is the list of all task objects.  Invoking a task
(`__call`, reached through the `Callable` wrapper of `src/lib/Callable.js`,
which merely forwards a call on the object to its `__call` hook) is a
deterministic big-step interpreter for the single-threaded cooperative
schedule, threading the heap and returning the emitted console lines and the
settlement of the memoized promise handle. -/

/-- The `states` constant object of `Task.js`. -/
inductive TState
  | IDLE
  | BUSY
  | DONE
  deriving Repr, DecidableEq

/-- A task executor (the `fn` constructor argument): once started with the
`(resolve, reject)` callbacks it either calls `resolve v`, calls `reject e`,
or never calls back. -/
inductive ExecAct (V E : Type)
  | complete (v : V)
  | fail (e : E)
  | hang
  deriving Repr, DecidableEq

/-- Settlement state of the dependency join (`Promise.all`). -/
inductive Join (E : Type)
  | rejected (e : E)
  | pending
  | fulfilled
  deriving Repr, DecidableEq

/-- Errors thrown synchronously by Task accessors (`throw new Error(...)` in
the source; the spec calls them InvalidStateError and NotReadyError). -/
inductive TaskError
  | invalidState
  | notReady
  deriving Repr, DecidableEq

deriving instance DecidableEq for Except

/-- The instance fields of a `Task`.  `_promise` is `none` until the first
invocation stores a handle; `some none` is a created but still pending
handle; `some (some o)` a settled one.  `_resolved = none` models the initial
JS `null`. -/
structure Task (V E : Type) where
  displayName : String
  _deps : List Nat
  _fn : ExecAct V E
  _state : TState
  _resolved : Option V
  _promise : Option (Option (Except E V))
  deriving Repr, DecidableEq

/-- The heap of task objects; dependency references are indices into it. -/
abbrev Heap (V E : Type) : Type := List (Task V E)

/-- The console lines emitted by the engine (the `console.log` calls in
`Task.__call` and `Task.resolver`), used as the observable event trace.
`execStart` is the "is running..." line printed when the task's own executor
starts; `execDone` the "has been resolved" line. -/
inductive Ev
  | depsStart (name : String)
  | depsDone (name : String)
  | execStart (name : String)
  | execDone (name : String)
  deriving Repr, DecidableEq

namespace Task

variable {V E : Type}

/-- `get hasDep()`: `_deps && _deps.length` is truthy iff the list is
non-empty. -/
def hasDep (t : Task V E) : Bool := decide (t._deps ≠ [])

/-- `get isIdle()`. -/
def isIdle (t : Task V E) : Bool := decide (t._state = TState.IDLE)

/-- `get isDone()`. -/
def isDone (t : Task V E) : Bool := decide (t._state = TState.DONE)

/-- `get isBusy()`. -/
def isBusy (t : Task V E) : Bool := decide (t._state = TState.BUSY)

/-- `get resolved()`: throws unless `isDone`; otherwise returns `_resolved`. -/
def resolved (t : Task V E) : Except TaskError (Option V) :=
  if t.isDone then Except.ok t._resolved
  else Except.error TaskError.notReady

/-- `addDep(dep)`: throws unless `isIdle`; otherwise `_deps.push(dep)`. -/
def addDep (t : Task V E) (d : Nat) : Except TaskError (Task V E) :=
  if t.isIdle then Except.ok { t with _deps := t._deps ++ [d] }
  else Except.error TaskError.invalidState

/-- The argument shapes accepted by the two `flex-params` patterns of the
constructor: an executor function and/or a dependencies array, in either
order. -/
inductive TaskArgs (V E : Type)
  | fnOnly (fn : ExecAct V E)
  | fnDeps (fn : ExecAct V E) (deps : List Nat)
  | depsOnly (deps : List Nat)
  | depsFn (deps : List Nat) (fn : ExecAct V E)
  deriving Repr, DecidableEq

/-- `flex-params` matching of the two patterns
`[\x7b fn:'function', deps:['array', []] \x7d,
\x7b deps:'array', fn:['function', resolve => resolve()] \x7d]`:
the dependency list defaults to `[]`, the executor defaults to
`resolve => resolve()`, which resolves with the JS `undefined` value,
modelled by the `undef` parameter. -/
def matchArgs (undef : V) : TaskArgs V E → ExecAct V E × List Nat
  | TaskArgs.fnOnly f => (f, [])
  | TaskArgs.fnDeps f ds => (f, ds)
  | TaskArgs.depsOnly ds => (ExecAct.complete undef, ds)
  | TaskArgs.depsFn ds f => (f, ds)

/-- The `Task` constructor: it stores `name` unchecked, matches the flexible
arguments, and initialises `_state = IDLE`, `_resolved = null`,
`_promise = null`.  The constructor body contains no validation and no throw
statement of any kind. -/
def construct (name : String) (undef : V) (a : TaskArgs V E) : Task V E :=
  { displayName := name
    _deps := (matchArgs undef a).2
    _fn := (matchArgs undef a).1
    _state := TState.IDLE
    _resolved := none
    _promise := none }

/-- `Task.resolver(resolve, reject)`: logs the "is running..." line, then
runs `_fn` with the wrapped callbacks.  The wrapped `_resolve` logs the
"has been resolved" line, sets `_state = DONE` and stores `_resolved` before
fulfilling the handle; `reject` is passed through untouched (no state
change); an executor that never calls back leaves the handle pending. -/
def resolver (h : Heap V E) (i : Nat) : Heap V E × List Ev × Option (Except E V) :=
  match h[i]? with
  | none => (h, [], none)
  | some t =>
    match t._fn with
    | ExecAct.complete v =>
        (h.set i { t with _state := TState.DONE, _resolved := some v },
         [Ev.execStart t.displayName, Ev.execDone t.displayName],
         some (Except.ok v))
    | ExecAct.fail e => (h, [Ev.execStart t.displayName], some (Except.error e))
    | ExecAct.hang => (h, [Ev.execStart t.displayName], none)

/-- The `this._promise = ...` assignments of `__call`: store the created
handle, with settlement `p`, on task `i`. -/
def setPromise (h : Heap V E) (i : Nat) (p : Option (Except E V)) : Heap V E :=
  match h[i]? with
  | some t => h.set i { t with _promise := some p }
  | none => h

/-- One step of the `Promise.all` join: combine the settlement of the first
dependency's handle with the join of the remaining ones.  Under the
serialized cooperative schedule an earlier dependency settles first, so the
first rejection in list order wins; a later rejection still rejects a join
whose earlier handles are merely pending. -/
def joinCons : Option (Except E V) → Join E → Join E
  | some (Except.error e), _ => Join.rejected e
  | some (Except.ok _), j => j
  | none, Join.rejected e => Join.rejected e
  | none, _ => Join.pending

/-- The dependency fan-out of `__call`: the `for..of` loop invokes every
dependency in declaration order (`step` is the task invocation at the
remaining fuel) and `Promise.all` joins the collected handles.  Every
dependency is invoked — and its side effects observed — regardless of earlier
failures; only the join result reflects the first failure. -/
def resolveDeps
    (step : Heap V E → Nat → Option (Heap V E × List Ev × Option (Except E V))) :
    Heap V E → List Nat → Option (Heap V E × List Ev × Join E)
  | h, [] => some (h, [], Join.fulfilled)
  | h, d :: ds =>
    match step h d with
    | none => none
    | some (h1, tr1, o1) =>
      match resolveDeps step h1 ds with
      | none => none
      | some (h2, tr2, j2) => some (h2, tr1 ++ tr2, joinCons o1 j2)

/-- `Task.__call()` — the behaviour of invoking the task (the `Callable`
wrapper forwards a function call on the task object here).  Return the
memoized `_promise` when present; otherwise set `_state = BUSY` and create
the handle: with dependencies, log the "Resolving dependencies" line, invoke
them all, and only when the join fulfills log the "All the dependincies ...
resolved" line and run `resolver`; without dependencies run `resolver`
directly.  `fuel` bounds the recursion depth: a cyclic dependency graph,
which diverges in the source, exhausts the fuel and yields `none`. -/
def __call : Nat → Heap V E → Nat → Option (Heap V E × List Ev × Option (Except E V))
  | 0, _, _ => none
  | fuel + 1, h, i =>
    match h[i]? with
    | none => none
    | some t =>
      match t._promise with
      | some p => some (h, [], p)
      | none =>
        let h1 := h.set i { t with _state := TState.BUSY }
        if t.hasDep then
          match resolveDeps (fun h' d => __call fuel h' d) h1 t._deps with
          | none => none
          | some (h2, tr, Join.rejected e) =>
              some (setPromise h2 i (some (Except.error e)),
                    Ev.depsStart t.displayName :: tr,
                    some (Except.error e))
          | some (h2, tr, Join.pending) =>
              some (setPromise h2 i none, Ev.depsStart t.displayName :: tr, none)
          | some (h2, tr, Join.fulfilled) =>
              match resolver h2 i with
              | (h3, tr2, o) =>
                some (setPromise h3 i o,
                      Ev.depsStart t.displayName ::
                        (tr ++ Ev.depsDone t.displayName :: tr2),
                      o)
        else
          match resolver h1 i with
          | (h2, tr, o) => some (setPromise h2 i o, tr, o)

/-- Progress rank of a task state along the IDLE → BUSY → DONE lifecycle. -/
def trank : TState → Nat
  | TState.IDLE => 0
  | TState.BUSY => 1
  | TState.DONE => 2

/-- Rank of the state of heap slot `j` (0 for an out-of-range reference,
which no run of the engine ever produces). -/
def rankAt (h : Heap V E) (j : Nat) : Nat :=
  match h[j]? with
  | some t => trank t._state
  | none => 0

/-- Per-object consistency between the memoized handle and the state fields:
a handle settled with `ok v` implies `_state = DONE` with `_resolved = v`,
and a task that has not yet created its handle has not reached DONE. -/
def okCheck [DecidableEq V] (t : Task V E) : Bool :=
  match t._promise with
  | some (some (Except.ok v)) =>
      decide (t._state = TState.DONE) && decide (t._resolved = some v)
  | none => decide (t._state ≠ TState.DONE)
  | _ => true

/-- Heap well-formedness: every task object passes `okCheck`.  It holds for
freshly constructed graphs and is preserved by invocation. -/
abbrev WF [DecidableEq V] (h : Heap V E) : Prop := h.all okCheck = true

/-- What one engine step does to the heap: the heap size is stable, and from
a well-formed heap well-formedness is preserved and no task's state ever
regresses along the lifecycle. -/
def stepOK [DecidableEq V] (h h' : Heap V E) : Prop :=
  h'.length = h.length ∧ (WF h → WF h' ∧ ∀ j, rankAt h j ≤ rankAt h' j)

/-- Sequential composition of two join settlements, used to split the
`Promise.all` join over an append of dependency lists. -/
def joinSeq : Join E → Join E → Join E
  | Join.rejected e, _ => Join.rejected e
  | Join.fulfilled, j => j
  | Join.pending, Join.rejected e => Join.rejected e
  | Join.pending, Join.pending => Join.pending
  | Join.pending, Join.fulfilled => Join.pending

end Task

/-! ### Logger theorems -/

namespace Logger

variable {A : Type}

/-- **C10.** For every Logger mode and every routed write: in NORMAL mode the
record is written immediately, in SILENT mode it is discarded (not written,
not retained in the buffer), and in BUFFER mode it is appended to the buffer
in call order; `log`/`debug`/`error`/`warn` are exactly the routed write with
their method tag, and the direct variants (`_do`, hence `_log`/`_debug`/
`_error`/`_warn`) write immediately in every mode without touching the
buffer. -/
theorem routed_vs_direct_write (l : Logger A) (m : String) (xs : List A) :
    ({ l with _mode := Mode.NORMAL }.do_ m xs
        = ({ l with _mode := Mode.NORMAL }, [⟨m, xs⟩]))
  ∧ ({ l with _mode := Mode.SILENT }.do_ m xs
        = ({ l with _mode := Mode.SILENT }, []))
  ∧ ({ l with _mode := Mode.BUFFER }.do_ m xs
        = ({ l with
             _mode := Mode.BUFFER
             _buffers := l._buffers ++ [⟨m, xs⟩] }, []))
  ∧ l._do m xs = (l, [⟨m, xs⟩])
  ∧ l.log xs = l.do_ "log" xs ∧ l.debug xs = l.do_ "debug" xs
  ∧ l.error xs = l.do_ "error" xs ∧ l.warn xs = l.do_ "warn" xs
  ∧ l._log xs = l._do "log" xs ∧ l._debug xs = l._do "debug" xs
  ∧ l._error xs = l._do "error" xs ∧ l._warn xs = l._do "warn" xs := by
  refine ⟨?_, ?_, ?_, rfl, rfl, rfl, rfl, rfl, rfl, rfl, rfl, rfl⟩ <;>
    simp [do_, isNormal, isBuffering, _do, buffer]

/-- **C9.** On a buffer holding `r :: rs` (oldest first), `flush()` emits all
records in insertion order and leaves the buffer empty; on a buffer holding
`rs ++ [r]`, `unbuffer()` emits only the most recently added record `r` and
leaves `rs` queued; on an empty buffer both return `false` and emit
nothing. -/
theorem flush_fifo_unbuffer_lifo (l : Logger A) (r : OutRec A)
    (rs : List (OutRec A)) :
    ({ l with _buffers := r :: rs }.flush
        = ({ l with _buffers := [] }, r :: rs, true))
  ∧ ({ l with _buffers := rs ++ [r] }.unbuffer
        = ({ l with _buffers := rs }, [r], true))
  ∧ (({ l with _buffers := [] } : Logger A).flush
        = ({ l with _buffers := [] }, [], false))
  ∧ (({ l with _buffers := [] } : Logger A).unbuffer
        = ({ l with _buffers := [] }, [], false)) := by
  refine ⟨?_, ?_, ?_, ?_⟩
  · simp [flush, hasBuffer, clearBuffers]
  · simp [unbuffer, hasBuffer, List.getLast?_concat, List.dropLast_concat]
  · simp [flush, hasBuffer]
  · simp [unbuffer, hasBuffer]

/-- **C4 counterexample.** After `unsuppress(false)` on a BUFFER-mode logger
holding one record, the buffer is *not* empty: the record is retained, not
discarded, refuting the claim that `unsuppress(false)` discards the buffer. -/
theorem unsuppress_false_retains_buffer :
    ¬ ((((Logger.mk Mode.BUFFER [OutRec.mk "log" [(0 : Nat)]]).unsuppress
          false).1)._buffers = []) := by decide

/-- **C4 (amended).** `unsuppress(flush)` sets the mode to NORMAL; when
`flush` is true it replays the buffered records oldest-first and empties the
buffer; when `flush` is false it leaves the buffer untouched and emits
nothing at that time — the records remain queued (they are not discarded). -/
theorem unsuppress_spec (l : Logger A) (r : OutRec A) (rs : List (OutRec A)) :
    ({ l with _buffers := r :: rs }.unsuppress true
        = ({ _mode := Mode.NORMAL, _buffers := [] }, r :: rs))
  ∧ (({ l with _buffers := [] } : Logger A).unsuppress true
        = ({ _mode := Mode.NORMAL, _buffers := [] }, []))
  ∧ (l.unsuppress false = ({ l with _mode := Mode.NORMAL }, [])) := by
  refine ⟨?_, ?_, rfl⟩ <;> simp [unsuppress, flush, hasBuffer, clearBuffers]

end Logger

/-! ### Task theorems -/

namespace Task

variable {V E : Type}

/-- **C5 counterexample.** Constructing a task with the empty name and an
invocable executor succeeds — the result is an IDLE task with name `""` —
whereas the claim requires construction to fail with a ConfigurationError
exactly when the name is empty.  The constructor performs no validation. -/
theorem construct_empty_name_succeeds :
    construct "" (0 : Nat) (TaskArgs.fnOnly (ExecAct.complete (5 : Nat)) :
        TaskArgs Nat Nat)
      = { displayName := "", _deps := [], _fn := ExecAct.complete 5,
          _state := TState.IDLE, _resolved := none, _promise := none } := by
  rfl

/-- **C5 (amended).** Task construction never fails: for every name
(including the empty string) and every argument shape matched by the two
flex-params patterns, the constructor returns a task in state IDLE with no
handle and no resolved value, the name stored unchecked, the executor
defaulting to an immediately-resolving function and the dependency list
defaulting to `[]`. -/
theorem construct_total_idle (name : String) (undef : V) (a : TaskArgs V E) :
    (construct name undef a)._state = TState.IDLE
  ∧ (construct name undef a).displayName = name
  ∧ (construct name undef a)._promise = none
  ∧ (construct name undef a)._resolved = none
  ∧ (∀ f : ExecAct V E, construct name undef (TaskArgs.fnOnly f)
      = { displayName := name, _deps := [], _fn := f,
          _state := TState.IDLE, _resolved := none, _promise := none })
  ∧ (∀ (f : ExecAct V E) (ds : List Nat), construct name undef (TaskArgs.fnDeps f ds)
      = { displayName := name, _deps := ds, _fn := f,
          _state := TState.IDLE, _resolved := none, _promise := none })
  ∧ (∀ ds : List Nat, construct name undef (TaskArgs.depsOnly ds : TaskArgs V E)
      = { displayName := name, _deps := ds, _fn := ExecAct.complete undef,
          _state := TState.IDLE, _resolved := none, _promise := none })
  ∧ (∀ (ds : List Nat) (f : ExecAct V E), construct name undef (TaskArgs.depsFn ds f)
      = { displayName := name, _deps := ds, _fn := f,
          _state := TState.IDLE, _resolved := none, _promise := none }) := by
  exact ⟨rfl, rfl, rfl, rfl, fun f => rfl, fun f ds => rfl, fun ds => rfl,
    fun ds f => rfl⟩

/-! #### List access helpers -/

theorem getElem_some_lt {α : Type} {l : List α} {i : Nat} {a : α}
    (h : l[i]? = some a) : i < l.length := (List.getElem?_eq_some.mp h).1

theorem exists_getElem_of_lt {α : Type} {l : List α} {i : Nat}
    (h : i < l.length) : ∃ a, l[i]? = some a :=
  ⟨l[i], List.getElem?_eq_getElem h⟩

theorem set_get_self {α : Type} {l : List α} {i : Nat} (a : α)
    (h : i < l.length) : (l.set i a)[i]? = some a :=
  List.getElem?_set_eq_of_lt a h

/-! #### Basic facts about the engine's heap operations -/

theorem call_zero (h : Heap V E) (i : Nat) : __call 0 h i = none := rfl

/-- C1's core computation: a stored handle is returned as-is, with no heap
change and no console output. -/
theorem call_memoized (fuel : Nat) (h : Heap V E) (i : Nat) (t : Task V E)
    (ht : h[i]? = some t) (p : Option (Except E V)) (hp : t._promise = some p) :
    __call (fuel + 1) h i = some (h, [], p) := by
  rw [__call, ht]
  simp [hp]

/-- Computation of a fresh invocation of a task without dependencies: go
BUSY, run `resolver`, store the handle. -/
theorem call_nodeps (fuel : Nat) (h : Heap V E) (i : Nat) (t : Task V E)
    (ht : h[i]? = some t) (hp : t._promise = none) (hd : t._deps = []) :
    __call (fuel + 1) h i =
      some (setPromise (resolver (h.set i { t with _state := TState.BUSY }) i).1 i
              (resolver (h.set i { t with _state := TState.BUSY }) i).2.2,
            (resolver (h.set i { t with _state := TState.BUSY }) i).2.1,
            (resolver (h.set i { t with _state := TState.BUSY }) i).2.2) := by
  rw [__call, ht]
  simp [hp, hasDep, hd]

/-- Computation of a fresh invocation of a task with dependencies: go BUSY,
resolve the dependencies, and behave according to the join. -/
theorem call_deps (fuel : Nat) (h : Heap V E) (i : Nat) (t : Task V E)
    (ht : h[i]? = some t) (hp : t._promise = none) (hd : t._deps ≠ []) :
    __call (fuel + 1) h i =
      match resolveDeps (fun h' d => __call fuel h' d)
          (h.set i { t with _state := TState.BUSY }) t._deps with
      | none => none
      | some (h2, tr, Join.rejected e) =>
          some (setPromise h2 i (some (Except.error e)),
                Ev.depsStart t.displayName :: tr, some (Except.error e))
      | some (h2, tr, Join.pending) =>
          some (setPromise h2 i none, Ev.depsStart t.displayName :: tr, none)
      | some (h2, tr, Join.fulfilled) =>
          some (setPromise (resolver h2 i).1 i (resolver h2 i).2.2,
                Ev.depsStart t.displayName ::
                  (tr ++ Ev.depsDone t.displayName :: (resolver h2 i).2.1),
                (resolver h2 i).2.2) := by
  rw [__call, ht]
  simp [hp, hasDep, hd]

theorem setPromise_get_self (h : Heap V E) (i : Nat) (p : Option (Except E V))
    (t : Task V E) (ht : h[i]? = some t) :
    (setPromise h i p)[i]? = some { t with _promise := some p } := by
  unfold setPromise
  rw [ht]
  exact set_get_self _ (getElem_some_lt ht)

theorem setPromise_get_ne (h : Heap V E) (i j : Nat) (p : Option (Except E V))
    (hne : i ≠ j) : (setPromise h i p)[j]? = h[j]? := by
  unfold setPromise
  cases hh : h[i]? with
  | none => rfl
  | some t => exact List.getElem?_set_ne hne

theorem setPromise_length (h : Heap V E) (i : Nat) (p : Option (Except E V)) :
    (setPromise h i p).length = h.length := by
  unfold setPromise
  cases hh : h[i]? with
  | none => rfl
  | some t => exact List.length_set ..

/-- `resolver` characterised by the executor of the task it runs. -/
theorem resolver_eq (h : Heap V E) (i : Nat) (t : Task V E)
    (ht : h[i]? = some t) :
    resolver h i =
      match t._fn with
      | ExecAct.complete v =>
          (h.set i { t with _state := TState.DONE, _resolved := some v },
           [Ev.execStart t.displayName, Ev.execDone t.displayName],
           some (Except.ok v))
      | ExecAct.fail e =>
          (h, [Ev.execStart t.displayName], some (Except.error e))
      | ExecAct.hang => (h, [Ev.execStart t.displayName], none) := by
  unfold resolver
  rw [ht]

/-! #### Rank and well-formedness facts -/

theorem trank_le_two (s : TState) : trank s ≤ 2 := by
  cases s <;> simp [trank]

theorem trank_ne_idle {s : TState} (h1 : 1 ≤ trank s) : s ≠ TState.IDLE := by
  cases s <;> simp [trank] at h1 ⊢

theorem trank_done_of_two {s : TState} (h2 : 2 ≤ trank s) : s = TState.DONE := by
  cases s <;> simp [trank] at h2 ⊢

theorem rankAt_eq {h : Heap V E} {j : Nat} {t : Task V E}
    (ht : h[j]? = some t) : rankAt h j = trank t._state := by
  rw [rankAt, ht]

variable [DecidableEq V]

theorem WF_get {h : Heap V E} (hw : WF h) {j : Nat} {t : Task V E}
    (ht : h[j]? = some t) : okCheck t = true := by
  rw [WF, List.all_eq_true] at hw
  exact hw t (List.getElem?_mem ht)

theorem WF_set {h : Heap V E} (hw : WF h) {i : Nat} {t : Task V E}
    (hok : okCheck t = true) : WF (h.set i t) := by
  rw [WF, List.all_eq_true] at hw ⊢
  intro x hx
  rcases List.mem_or_eq_of_mem_set hx with h1 | h2
  · exact hw x h1
  · rw [h2]
    exact hok

theorem okCheck_none {t : Task V E} (hok : okCheck t = true)
    (hp : t._promise = none) : t._state ≠ TState.DONE := by
  rw [okCheck, hp] at hok
  simpa using hok

theorem okCheck_ok {t : Task V E} (hok : okCheck t = true) {v : V}
    (hp : t._promise = some (some (Except.ok v))) :
    t._state = TState.DONE ∧ t._resolved = some v := by
  rw [okCheck, hp] at hok
  simpa using hok

/-! #### One-step heap evolution: `stepOK` -/

theorem stepOK_refl (h : Heap V E) : stepOK h h :=
  ⟨rfl, fun hw => ⟨hw, fun j => le_refl _⟩⟩

theorem stepOK_trans {h1 h2 h3 : Heap V E} (a : stepOK h1 h2)
    (b : stepOK h2 h3) : stepOK h1 h3 := by
  refine ⟨b.1.trans a.1, fun hw => ?_⟩
  obtain ⟨hw2, hm2⟩ := a.2 hw
  obtain ⟨hw3, hm3⟩ := b.2 hw2
  exact ⟨hw3, fun j => (hm2 j).trans (hm3 j)⟩

/-- The `_state = BUSY` write performed by a fresh invocation. -/
theorem stepOK_busy {h : Heap V E} {i : Nat} {t : Task V E}
    (ht : h[i]? = some t) (hp : t._promise = none) :
    stepOK h (h.set i { t with _state := TState.BUSY }) := by
  refine ⟨List.length_set .., fun hw => ?_⟩
  have hok : okCheck ({ t with _state := TState.BUSY } : Task V E) = true := by
    simp [okCheck, hp]
  refine ⟨WF_set hw hok, fun j => ?_⟩
  by_cases hj : j = i
  · subst hj
    rw [rankAt_eq ht, rankAt_eq (set_get_self _ (getElem_some_lt ht))]
    have hnd : t._state ≠ TState.DONE := okCheck_none (WF_get hw ht) hp
    cases hs : t._state
    · simp [trank]
    · simp [trank]
    · rw [hs] at hnd
      exact absurd rfl hnd
  · rw [rankAt, rankAt, List.getElem?_set_ne (fun hh => hj hh.symm)]

/-- Storing a rejected or pending handle never breaks well-formedness and
changes no state. -/
theorem stepOK_setPromise_safe {h : Heap V E} {i : Nat}
    {p : Option (Except E V)} (hsafe : ∀ v, p ≠ some (Except.ok v)) :
    stepOK h (setPromise h i p) := by
  cases hh : h[i]? with
  | none =>
      have : setPromise h i p = h := by
        unfold setPromise
        rw [hh]
      rw [this]
      exact stepOK_refl h
  | some u =>
    refine ⟨setPromise_length .., fun hw => ?_⟩
    have hok : okCheck ({ u with _promise := some p } : Task V E) = true := by
      cases p with
      | none => simp [okCheck]
      | some o =>
        cases o with
        | error e => simp [okCheck]
        | ok v => exact absurd rfl (hsafe v)
    have hset : setPromise h i p = h.set i { u with _promise := some p } := by
      unfold setPromise
      rw [hh]
    rw [hset]
    refine ⟨WF_set hw hok, fun j => ?_⟩
    by_cases hj : j = i
    · subst hj
      rw [rankAt_eq hh, rankAt_eq (set_get_self _ (getElem_some_lt hh))]
    · rw [rankAt, rankAt, List.getElem?_set_ne (fun hh2 => hj hh2.symm)]

/-- Running `resolver` and storing its settlement — the composite performed
by `__call` once the executor is allowed to start. -/
theorem stepOK_resolveSet (h : Heap V E) (i : Nat) :
    stepOK h (setPromise (resolver h i).1 i (resolver h i).2.2) := by
  cases hh : h[i]? with
  | none =>
      have hres : resolver h i = (h, [], none) := by
        unfold resolver
        rw [hh]
      rw [hres]
      exact stepOK_setPromise_safe (fun v hv => by cases hv)
  | some u =>
    rw [resolver_eq h i u hh]
    cases hf : u._fn with
    | complete v =>
      have hlt : i < h.length := getElem_some_lt hh
      have hget : (h.set i { u with
            _fn := ExecAct.complete v
            _state := TState.DONE
            _resolved := some v })[i]?
          = some { u with
            _fn := ExecAct.complete v
            _state := TState.DONE
            _resolved := some v } :=
        set_get_self _ hlt
      have hset : setPromise
            (h.set i { u with
              _fn := ExecAct.complete v
              _state := TState.DONE
              _resolved := some v }) i
            (some (Except.ok v))
          = h.set i { u with
              _fn := ExecAct.complete v
              _state := TState.DONE
              _resolved := some v
              _promise := some (some (Except.ok v)) } := by
        unfold setPromise
        rw [hget]
        simp only [List.set_set]
      simp only [hset]
      refine ⟨List.length_set .., fun hw => ?_⟩
      have hok : okCheck ({ u with
          _fn := ExecAct.complete v
          _state := TState.DONE
          _resolved := some v
          _promise := some (some (Except.ok v)) } : Task V E) = true := by
        simp [okCheck]
      refine ⟨WF_set hw hok, fun j => ?_⟩
      by_cases hj : j = i
      · subst hj
        rw [rankAt_eq hh, rankAt_eq (set_get_self _ hlt)]
        exact trank_le_two _
      · rw [rankAt, rankAt, List.getElem?_set_ne (fun hh2 => hj hh2.symm)]
    | fail e => exact stepOK_setPromise_safe (fun v hv => by cases hv)
    | hang => exact stepOK_setPromise_safe (fun v hv => by cases hv)

theorem resolver_length (h : Heap V E) (i : Nat) :
    (resolver h i).1.length = h.length := by
  cases hh : h[i]? with
  | none =>
    unfold resolver
    rw [hh]
  | some t =>
    rw [resolver_eq h i t hh]
    cases t._fn <;> simp [List.length_set]

/-- `resolveDeps` inherits the one-step heap discipline of the invocation it
iterates. -/
theorem resolveDeps_stepOK
    {step : Heap V E → Nat → Option (Heap V E × List Ev × Option (Except E V))}
    (Hstep : ∀ h d r, step h d = some r → stepOK h r.1) :
    ∀ (ds : List Nat) (h : Heap V E) r,
      resolveDeps step h ds = some r → stepOK h r.1 := by
  intro ds
  induction ds with
  | nil =>
    intro h r hr
    simp only [resolveDeps] at hr
    cases hr
    exact stepOK_refl h
  | cons d ds ih =>
    intro h r hr
    simp only [resolveDeps] at hr
    cases hs : step h d with
    | none => rw [hs] at hr; cases hr
    | some s1 =>
      obtain ⟨h1, tr1, o1⟩ := s1
      cases hrest : resolveDeps step h1 ds with
      | none =>
        simp only [hs, hrest] at hr
        cases hr
      | some s2 =>
        obtain ⟨h2, tr2, j2⟩ := s2
        simp only [hs, hrest] at hr
        cases hr
        exact stepOK_trans (Hstep h d (h1, tr1, o1) hs) (ih h1 (h2, tr2, j2) hrest)

/-- Invocation keeps the heap size, preserves well-formedness and never
regresses any task's state. -/
theorem call_stepOK :
    ∀ (fuel : Nat) (h : Heap V E) (i : Nat) r,
      __call fuel h i = some r → stepOK h r.1 := by
  intro fuel
  induction fuel with
  | zero =>
    intro h i r hr
    cases hr
  | succ fuel ih =>
    intro h i r hr
    cases ht : h[i]? with
    | none => rw [__call, ht] at hr; cases hr
    | some t =>
      cases hp : t._promise with
      | some p =>
        rw [call_memoized fuel h i t ht p hp] at hr
        cases hr
        exact stepOK_refl h
      | none =>
        cases hdep : t._deps with
        | nil =>
          rw [call_nodeps fuel h i t ht hp hdep] at hr
          cases hr
          exact stepOK_trans (stepOK_busy ht hp)
            (stepOK_resolveSet (h.set i { t with _state := TState.BUSY }) i)
        | cons d0 ds0 =>
          have hdne : t._deps ≠ [] := by rw [hdep]; simp
          rw [call_deps fuel h i t ht hp hdne] at hr
          cases hres : resolveDeps (fun h' d => __call fuel h' d)
              (h.set i { t with _state := TState.BUSY }) t._deps with
          | none => rw [hres] at hr; cases hr
          | some s =>
            obtain ⟨h2, tr, j⟩ := s
            rw [hres] at hr
            have hdeps : stepOK (h.set i { t with _state := TState.BUSY }) h2 :=
              resolveDeps_stepOK (fun h d r hr => ih h d r hr) t._deps _
                (h2, tr, j) hres
            cases j with
            | rejected e =>
              cases hr
              exact stepOK_trans (stepOK_busy ht hp) (stepOK_trans hdeps
                (stepOK_setPromise_safe (fun v hv => by cases hv)))
            | pending =>
              cases hr
              exact stepOK_trans (stepOK_busy ht hp) (stepOK_trans hdeps
                (stepOK_setPromise_safe (fun v hv => by cases hv)))
            | fulfilled =>
              cases hr
              exact stepOK_trans (stepOK_busy ht hp)
                (stepOK_trans hdeps (stepOK_resolveSet h2 i))

/-- Every successful invocation leaves the invoked task holding a memoized
handle whose settlement is exactly the returned one. -/
theorem call_sets_promise :
    ∀ (fuel : Nat) (h : Heap V E) (i : Nat) r, __call fuel h i = some r →
      ∃ t', r.1[i]? = some t' ∧ t'._promise = some r.2.2 := by
  intro fuel
  induction fuel with
  | zero =>
    intro h i r hr
    cases hr
  | succ fuel ih =>
    intro h i r hr
    cases ht : h[i]? with
    | none => rw [__call, ht] at hr; cases hr
    | some t =>
      have hlt : i < h.length := getElem_some_lt ht
      cases hp : t._promise with
      | some p =>
        rw [call_memoized fuel h i t ht p hp] at hr
        cases hr
        exact ⟨t, ht, hp⟩
      | none =>
        cases hdep : t._deps with
        | nil =>
          rw [call_nodeps fuel h i t ht hp hdep] at hr
          cases hr
          have hlen : (resolver (h.set i
              { t with _state := TState.BUSY }) i).1.length = h.length := by
            rw [resolver_length, List.length_set]
          obtain ⟨u, hu⟩ := exists_getElem_of_lt
            (l := (resolver (h.set i { t with _state := TState.BUSY }) i).1)
            (by rw [hlen]; exact hlt)
          exact ⟨_, setPromise_get_self _ i _ u hu, rfl⟩
        | cons d0 ds0 =>
          have hdne : t._deps ≠ [] := by rw [hdep]; simp
          rw [call_deps fuel h i t ht hp hdne] at hr
          cases hres : resolveDeps (fun h' d => __call fuel h' d)
              (h.set i { t with _state := TState.BUSY }) t._deps with
          | none => rw [hres] at hr; cases hr
          | some s =>
            obtain ⟨h2, tr, j⟩ := s
            rw [hres] at hr
            have hlen2 : h2.length = h.length := by
              have := (resolveDeps_stepOK
                (fun h d r hr => call_stepOK fuel h d r hr) t._deps _
                (h2, tr, j) hres).1
              rw [this, List.length_set]
            cases j with
            | rejected e =>
              cases hr
              obtain ⟨u, hu⟩ := exists_getElem_of_lt (l := h2)
                (by rw [hlen2]; exact hlt)
              exact ⟨_, setPromise_get_self _ i _ u hu, rfl⟩
            | pending =>
              cases hr
              obtain ⟨u, hu⟩ := exists_getElem_of_lt (l := h2)
                (by rw [hlen2]; exact hlt)
              exact ⟨_, setPromise_get_self _ i _ u hu, rfl⟩
            | fulfilled =>
              cases hr
              have hlen3 : (resolver h2 i).1.length = h.length := by
                rw [resolver_length, hlen2]
              obtain ⟨u, hu⟩ := exists_getElem_of_lt (l := (resolver h2 i).1)
                (by rw [hlen3]; exact hlt)
              exact ⟨_, setPromise_get_self _ i _ u hu, rfl⟩

theorem setPromise_eq (h : Heap V E) (i : Nat) (p : Option (Except E V))
    (t : Task V E) (ht : h[i]? = some t) :
    setPromise h i p = h.set i { t with _promise := some p } := by
  unfold setPromise
  rw [ht]

/-- Fresh invocation of a dependency-free task whose executor completes:
state DONE, value stored, handle fulfilled, both console lines emitted. -/
theorem call_leaf_complete (fuel : Nat) (h : Heap V E) (i : Nat)
    (t : Task V E) (v : V) (ht : h[i]? = some t) (hp : t._promise = none)
    (hd : t._deps = []) (hf : t._fn = ExecAct.complete v) :
    __call (fuel + 1) h i =
      some (h.set i { t with
              _state := TState.DONE
              _resolved := some v
              _promise := some (some (Except.ok v)) },
            [Ev.execStart t.displayName, Ev.execDone t.displayName],
            some (Except.ok v)) := by
  have hlt : i < h.length := getElem_some_lt ht
  rw [call_nodeps fuel h i t ht hp hd]
  rw [resolver_eq _ i ({ t with _state := TState.BUSY }) (set_get_self _ hlt)]
  simp only [hf]
  rw [setPromise_eq _ i _ _ (set_get_self _ (by simpa using hlt))]
  simp only [List.set_set]

/-- Fresh invocation of a dependency-free task whose executor fails: the
handle is rejected, the state stays BUSY, only the "running" line is
emitted, no value is stored. -/
theorem call_leaf_fail (fuel : Nat) (h : Heap V E) (i : Nat)
    (t : Task V E) (e : E) (ht : h[i]? = some t) (hp : t._promise = none)
    (hd : t._deps = []) (hf : t._fn = ExecAct.fail e) :
    __call (fuel + 1) h i =
      some (h.set i { t with
              _state := TState.BUSY
              _promise := some (some (Except.error e)) },
            [Ev.execStart t.displayName],
            some (Except.error e)) := by
  have hlt : i < h.length := getElem_some_lt ht
  rw [call_nodeps fuel h i t ht hp hd]
  rw [resolver_eq _ i ({ t with _state := TState.BUSY }) (set_get_self _ hlt)]
  simp only [hf]
  rw [setPromise_eq _ i _ _ (set_get_self _ hlt)]
  simp only [List.set_set]

/-- A fresh invocation immediately leaves IDLE: in the resulting heap the
invoked task has progressed at least to BUSY. -/
theorem call_fresh_rank (fuel : Nat) (h : Heap V E) (i : Nat) (u : Task V E)
    (r : Heap V E × List Ev × Option (Except E V)) (hw : WF h)
    (hu : h[i]? = some u) (hp : u._promise = none)
    (hrun : __call fuel h i = some r) : 1 ≤ rankAt r.1 i := by
  cases fuel with
  | zero => cases hrun
  | succ fuel =>
    have hbusy := stepOK_busy hu hp
    have hwb : WF (h.set i { u with _state := TState.BUSY }) := (hbusy.2 hw).1
    have hrank1 : rankAt (h.set i { u with _state := TState.BUSY }) i = 1 := by
      rw [rankAt_eq (set_get_self _ (getElem_some_lt hu))]
      rfl
    cases hdep : u._deps with
    | nil =>
      rw [call_nodeps fuel h i u hu hp hdep] at hrun
      cases hrun
      have hstep := stepOK_resolveSet (h.set i { u with _state := TState.BUSY }) i
      have hm := ((hstep.2 hwb).2) i
      rw [hrank1] at hm
      exact hm
    | cons d0 ds0 =>
      have hdne : u._deps ≠ [] := by rw [hdep]; simp
      rw [call_deps fuel h i u hu hp hdne] at hrun
      cases hres : resolveDeps (fun h' d => __call fuel h' d)
          (h.set i { u with _state := TState.BUSY }) u._deps with
      | none => rw [hres] at hrun; cases hrun
      | some s =>
        obtain ⟨h2, tr, j⟩ := s
        rw [hres] at hrun
        have hdeps : stepOK (h.set i { u with _state := TState.BUSY }) h2 :=
          resolveDeps_stepOK (fun h d r hr => call_stepOK fuel h d r hr)
            u._deps _ (h2, tr, j) hres
        have hw2 : WF h2 := (hdeps.2 hwb).1
        have hm2 := (hdeps.2 hwb).2 i
        rw [hrank1] at hm2
        cases j with
        | rejected e =>
          cases hrun
          have hst := stepOK_setPromise_safe
            (h := h2) (i := i) (p := some (Except.error e))
            (fun v hv => by cases hv)
          exact hm2.trans ((hst.2 hw2).2 i)
        | pending =>
          cases hrun
          have hst := stepOK_setPromise_safe
            (h := h2) (i := i) (p := (none : Option (Except E V)))
            (fun v hv => by cases hv)
          exact hm2.trans ((hst.2 hw2).2 i)
        | fulfilled =>
          cases hrun
          have hst := stepOK_resolveSet h2 i
          exact hm2.trans ((hst.2 hw2).2 i)

/-- A successfully fulfilled invocation leaves the task DONE with the
resolved value stored. -/
theorem call_ok_done (fuel : Nat) (h : Heap V E) (i : Nat)
    (r : Heap V E × List Ev × Option (Except E V)) (v : V) (hw : WF h)
    (hrun : __call fuel h i = some r) (ho : r.2.2 = some (Except.ok v)) :
    ∃ u, r.1[i]? = some u ∧ u._state = TState.DONE ∧ u._resolved = some v := by
  obtain ⟨t', ht', hp'⟩ := call_sets_promise fuel h i r hrun
  have hw' : WF r.1 := ((call_stepOK fuel h i r hrun).2 hw).1
  rw [ho] at hp'
  obtain ⟨hs, hres⟩ := okCheck_ok (WF_get hw' ht') hp'
  exact ⟨t', ht', hs, hres⟩

theorem joinCons_fulfilled {o : Option (Except E V)} {j : Join E}
    (h : joinCons o j = Join.fulfilled) :
    (∃ v, o = some (Except.ok v)) ∧ j = Join.fulfilled := by
  cases o with
  | none => cases j <;> simp [joinCons] at h
  | some x =>
    cases x with
    | error e => simp [joinCons] at h
    | ok v => exact ⟨⟨v, rfl⟩, by simpa [joinCons] using h⟩

/-- When the dependency join fulfills, every dependency has reached DONE in
the heap the join hands over (the heap in which the dependent task's
executor then starts). -/
theorem resolveDeps_fulfilled_done (fuel : Nat) :
    ∀ (ds : List Nat) (h : Heap V E) (h2 : Heap V E) (tr : List Ev),
      WF h →
      resolveDeps (fun h' d => __call fuel h' d) h ds
        = some (h2, tr, Join.fulfilled) →
      ∀ d, d ∈ ds → ∃ u, h2[d]? = some u ∧ u._state = TState.DONE := by
  intro ds
  induction ds with
  | nil =>
    intro h h2 tr hw hr d hd
    cases hd
  | cons d0 ds ih =>
    intro h h2 tr hw hr d hd
    simp only [resolveDeps] at hr
    cases hs : __call fuel h d0 with
    | none =>
      simp only [hs] at hr
      cases hr
    | some s1 =>
      obtain ⟨h1, tr1, o1⟩ := s1
      cases hrest : resolveDeps (fun h' d' => __call fuel h' d') h1 ds with
      | none =>
        simp only [hs, hrest] at hr
        cases hr
      | some s2 =>
        obtain ⟨h2', tr2, j2⟩ := s2
        simp only [hs, hrest, Option.some.injEq, Prod.mk.injEq] at hr
        obtain ⟨hh2, htr, hjoin⟩ := hr
        obtain ⟨⟨v, hov⟩, hj2⟩ := joinCons_fulfilled hjoin
        subst hh2
        subst hj2
        have hw1 : WF h1 :=
          ((call_stepOK fuel h d0 (h1, tr1, o1) hs).2 hw).1
        rcases List.mem_cons.mp hd with rfl | hd'
        · obtain ⟨u, hu, hud, hures⟩ :=
            call_ok_done fuel h d (h1, tr1, o1) v hw hs hov
          have hdeps : stepOK h1 h2' :=
            resolveDeps_stepOK (fun h d r hr => call_stepOK fuel h d r hr)
              ds h1 (h2', tr2, Join.fulfilled) hrest
          have hlen : h2'.length = h1.length := hdeps.1
          obtain ⟨u', hu'⟩ := exists_getElem_of_lt (l := h2')
            (by rw [hlen]; exact getElem_some_lt hu)
          have hm := (hdeps.2 hw1).2 d
          rw [rankAt_eq hu, rankAt_eq hu', hud] at hm
          exact ⟨u', hu', trank_done_of_two hm⟩
        · exact ih h1 h2' tr2 hw1 hrest d hd'

/-- **C1.** Once `invoke()` has stored a resolution handle, every later
invocation returns that exact handle with the heap unchanged (no state
change, no dependency re-invocation) and an empty console trace (the
executor body does not run again) — invoking more than once is idempotent
and the executor runs at most once. -/
theorem call_memoized_idempotent (fuel fuel2 : Nat) (h : Heap V E) (i : Nat)
    (h' : Heap V E) (tr : List Ev) (o : Option (Except E V))
    (hrun : __call fuel h i = some (h', tr, o)) :
    __call (fuel2 + 1) h' i = some (h', [], o) := by
  obtain ⟨t', ht', hp'⟩ := call_sets_promise fuel h i _ hrun
  exact call_memoized fuel2 h' i t' ht' o hp'

/-- Witness for C1: a concrete one-task heap; after the first invocation
resolves with 42, a second (and any further) invocation returns the settled
handle unchanged, with no console output. -/
theorem call_memoized_idempotent_witness :
    __call 1
      [(⟨"A", [], ExecAct.complete 42, TState.DONE, some 42,
         some (some (Except.ok 42))⟩ : Task Nat Nat)] 0
    = some ([(⟨"A", [], ExecAct.complete 42, TState.DONE, some 42,
         some (some (Except.ok 42))⟩ : Task Nat Nat)], [],
        some (Except.ok 42)) :=
  call_memoized_idempotent 1 0
    [(⟨"A", [], ExecAct.complete 42, TState.IDLE, none, none⟩ : Task Nat Nat)] 0
    [(⟨"A", [], ExecAct.complete 42, TState.DONE, some 42,
       some (some (Except.ok 42))⟩ : Task Nat Nat)]
    [Ev.execStart "A", Ev.execDone "A"] (some (Except.ok 42)) (by decide)

theorem joinCons_seq (o : Option (Except E V)) (j1 j2 : Join E) :
    joinCons o (joinSeq j1 j2) = joinSeq (joinCons o j1) j2 := by
  cases o with
  | none => cases j1 <;> cases j2 <;> rfl
  | some x => cases x <;> cases j1 <;> cases j2 <;> rfl

/-- Splitting the dependency fan-out over an append of dependency lists:
the second half runs in the heap the first half produced, and the joins
compose sequentially. -/
theorem resolveDeps_append
    (step : Heap V E → Nat → Option (Heap V E × List Ev × Option (Except E V)))
    (xs ys : List Nat) : ∀ h : Heap V E,
    resolveDeps step h (xs ++ ys) =
      match resolveDeps step h xs with
      | none => none
      | some (h1, tr1, j1) =>
        match resolveDeps step h1 ys with
        | none => none
        | some (h2, tr2, j2) => some (h2, tr1 ++ tr2, joinSeq j1 j2) := by
  induction xs with
  | nil =>
    intro h
    simp only [List.nil_append, resolveDeps]
    cases hys : resolveDeps step h ys with
    | none => rfl
    | some s =>
      obtain ⟨h2, tr2, j2⟩ := s
      simp [joinSeq]
  | cons x xs ih =>
    intro h
    simp only [List.cons_append, resolveDeps]
    cases hs : step h x with
    | none => rfl
    | some s1 =>
      obtain ⟨h1, tr1, o1⟩ := s1
      simp only [List.append_eq]
      rw [ih h1]
      cases hxs : resolveDeps step h1 xs with
      | none => simp [hxs]
      | some s2 =>
        obtain ⟨h2, tr2, j2⟩ := s2
        cases hys : resolveDeps step h2 ys with
        | none => simp [hxs, hys]
        | some s3 =>
          obtain ⟨h3, tr3, j3⟩ := s3
          simp [hxs, hys, joinCons_seq, List.append_assoc]

/-- **C2.** A freshly invoked task with a non-empty dependency list first
joins all its dependencies; its own executor (`resolver`) runs exactly when
the join fulfills (all dependency handles resolved successfully), and in the
heap `h2` in which the executor then starts every dependency has already
reached state DONE — so the executor never starts before every dependency is
DONE. -/
theorem executor_starts_after_deps_done (fuel : Nat) (h : Heap V E) (i : Nat)
    (t : Task V E) (h2 : Heap V E) (tr : List Ev)
    (hw : WF h) (ht : h[i]? = some t) (hp : t._promise = none)
    (hne : t._deps ≠ [])
    (hj : resolveDeps (fun hh d => __call fuel hh d)
        (h.set i { t with _state := TState.BUSY }) t._deps
      = some (h2, tr, Join.fulfilled)) :
    (∀ d, d ∈ t._deps → ∃ u, h2[d]? = some u ∧ u._state = TState.DONE)
  ∧ __call (fuel + 1) h i
      = some (setPromise (resolver h2 i).1 i (resolver h2 i).2.2,
              Ev.depsStart t.displayName ::
                (tr ++ Ev.depsDone t.displayName :: (resolver h2 i).2.1),
              (resolver h2 i).2.2) := by
  constructor
  · exact resolveDeps_fulfilled_done fuel t._deps
      (h.set i { t with _state := TState.BUSY }) h2 tr
      (((stepOK_busy ht hp).2 hw).1) hj
  · rw [call_deps fuel h i t ht hp hne, hj]

/-- **C3.** When a dependency rejects with error `e` — the first rejection,
the joins of the earlier dependencies not being rejections — the dependent
task's handle rejects with exactly that `e`, unaltered by the outcomes of
the remaining dependencies (which are still invoked: their heap effects and
traces are observed), and the task's own executor never runs: the result
trace holds only the dependency-resolution line and the dependencies' own
lines, and the only write to the task itself is the rejected handle. -/
theorem dep_failure_first_error_wins (fuel : Nat) (h : Heap V E) (i : Nat)
    (t : Task V E) (pre post : List Nat) (d : Nat)
    (h1 : Heap V E) (tr1 : List Ev) (j1 : Join E)
    (h2 : Heap V E) (tr2 : List Ev) (e : E)
    (h3 : Heap V E) (tr3 : List Ev) (j3 : Join E)
    (ht : h[i]? = some t) (hp : t._promise = none)
    (hdeps : t._deps = pre ++ d :: post)
    (hpre : resolveDeps (fun hh dd => __call fuel hh dd)
        (h.set i { t with _state := TState.BUSY }) pre = some (h1, tr1, j1))
    (hj1 : ∀ e', j1 ≠ Join.rejected e')
    (hd : __call fuel h1 d = some (h2, tr2, some (Except.error e)))
    (hpost : resolveDeps (fun hh dd => __call fuel hh dd) h2 post
        = some (h3, tr3, j3)) :
    __call (fuel + 1) h i
      = some (setPromise h3 i (some (Except.error e)),
              Ev.depsStart t.displayName :: (tr1 ++ (tr2 ++ tr3)),
              some (Except.error e)) := by
  have hne : t._deps ≠ [] := by rw [hdeps]; simp
  have hseq : joinSeq j1 (Join.rejected e) = Join.rejected e := by
    cases j1 with
    | rejected e' => exact absurd rfl (hj1 e')
    | pending => rfl
    | fulfilled => rfl
  rw [call_deps fuel h i t ht hp hne]
  rw [hdeps] at hpre ⊢
  rw [resolveDeps_append _ pre (d :: post), hpre]
  simp [resolveDeps, hd, hpost, hseq, joinCons]

/-- **C6.** Task states move only forwards along IDLE → BUSY → DONE: no
invocation ever lowers any task's rank, and DONE is terminal.  In
particular, when the executor of a (dependency-free) task fails, the handle
is rejected but the state remains BUSY, and when a (leaf) dependency of a
task fails, the dependent task's handle is rejected while its state likewise
remains BUSY — there is no FAILED state. -/
theorem state_monotone_no_failed (fuel : Nat) (h : Heap V E) (i : Nat)
    (hw : WF h) :
    (∀ r : Heap V E × List Ev × Option (Except E V),
      __call fuel h i = some r → ∀ j : Nat, rankAt h j ≤ rankAt r.1 j)
  ∧ (∀ (r : Heap V E × List Ev × Option (Except E V)) (j : Nat)
      (u u' : Task V E), __call fuel h i = some r → h[j]? = some u →
      r.1[j]? = some u' → u._state = TState.DONE → u'._state = TState.DONE)
  ∧ (∀ t e, h[i]? = some t → t._promise = none → t._deps = [] →
      t._fn = ExecAct.fail e →
      __call (fuel + 1) h i =
        some (h.set i { t with
                _state := TState.BUSY
                _promise := some (some (Except.error e)) },
              [Ev.execStart t.displayName], some (Except.error e)))
  ∧ (∀ t td d e, h[i]? = some t → t._promise = none → t._deps = [d] →
      d ≠ i → h[d]? = some td → td._promise = none → td._deps = [] →
      td._fn = ExecAct.fail e →
      __call (fuel + 2) h i =
        some (((h.set i { t with _state := TState.BUSY }).set d { td with
                  _state := TState.BUSY
                  _promise := some (some (Except.error e)) }).set i
                { t with
                  _state := TState.BUSY
                  _promise := some (some (Except.error e)) },
              [Ev.depsStart t.displayName, Ev.execStart td.displayName],
              some (Except.error e))) := by
  refine ⟨?_, ?_, ?_, ?_⟩
  · intro r hrun j
    exact ((call_stepOK fuel h i r hrun).2 hw).2 j
  · intro r j u u' hrun hu hu' hud
    have hm := ((call_stepOK fuel h i r hrun).2 hw).2 j
    rw [rankAt_eq hu, rankAt_eq hu', hud] at hm
    exact trank_done_of_two hm
  · intro t e ht hp hd hf
    exact call_leaf_fail fuel h i t e ht hp hd hf
  · intro t td d e ht hp hdeps hdne htd htdp htdd htdf
    have hlt : i < h.length := getElem_some_lt ht
    have hne2 : t._deps ≠ [] := by rw [hdeps]; simp
    rw [show fuel + 2 = (fuel + 1) + 1 from rfl]
    rw [call_deps (fuel + 1) h i t ht hp hne2, hdeps]
    have h1d : (h.set i { t with
        _deps := [d]
        _state := TState.BUSY })[d]? = some td := by
      rw [List.getElem?_set_ne (show i ≠ d from fun hh => hdne hh.symm)]
      exact htd
    have hcd := call_leaf_fail fuel (h.set i { t with
      _deps := [d]
      _state := TState.BUSY }) d td e h1d htdp htdd htdf
    have hrd : resolveDeps (fun hh dd => __call (fuel + 1) hh dd)
        (h.set i { t with
          _deps := [d]
          _state := TState.BUSY }) [d]
        = some ((h.set i { t with
                  _deps := [d]
                  _state := TState.BUSY }).set d { td with
                  _state := TState.BUSY
                  _promise := some (some (Except.error e)) },
                [Ev.execStart td.displayName], Join.rejected e) := by
      simp [resolveDeps, hcd, joinCons]
    have h2i : ((h.set i { t with
          _deps := [d]
          _state := TState.BUSY }).set d { td with
          _state := TState.BUSY
          _promise := some (some (Except.error e)) })[i]?
        = some ({ t with
          _deps := [d]
          _state := TState.BUSY } : Task V E) := by
      rw [List.getElem?_set_ne hdne]
      exact set_get_self _ hlt
    rw [hrd]
    simp [setPromise_eq _ i _ _ h2i]

/-- **C7.** `addDep(dep)` appends `dep` to the end of the dependency list
and succeeds exactly when the state is IDLE; after `invoke()` has been
called the task is never IDLE again, so `addDep` raises the
InvalidStateError — even after resolution has completed (state DONE). -/
theorem addDep_only_when_idle (t : Task V E) (d : Nat) (fuel : Nat)
    (h : Heap V E) (i : Nat) (u : Task V E)
    (r : Heap V E × List Ev × Option (Except E V)) (t' : Task V E)
    (hw : WF h) (hu : h[i]? = some u) (hp : u._promise = none)
    (hrun : __call fuel h i = some r) (ht' : r.1[i]? = some t') :
    (t._state = TState.IDLE →
      t.addDep d = Except.ok { t with _deps := t._deps ++ [d] })
  ∧ (t._state ≠ TState.IDLE →
      t.addDep d = Except.error TaskError.invalidState)
  ∧ t'.addDep d = Except.error TaskError.invalidState := by
  refine ⟨?_, ?_, ?_⟩
  · intro hidle
    simp [addDep, isIdle, hidle]
  · intro hne
    simp [addDep, isIdle, hne]
  · have hrank := call_fresh_rank fuel h i u r hw hu hp hrun
    rw [rankAt_eq ht'] at hrank
    simp [addDep, isIdle, trank_ne_idle hrank]

/-- **C8.** Reading the `resolved` accessor raises the NotReadyError
whenever the state is not DONE; a fresh invocation of a dependency-free
task whose executor calls `complete v` leaves it DONE with `_resolved = v`
and the accessor then returns exactly `v`; in general, any invocation that
settles with `ok v` leaves the accessor of the invoked task returning
exactly `v`. -/
theorem resolved_guard (t : Task V E) (fuel : Nat) (h : Heap V E) (i : Nat)
    (u : Task V E) (v : V) (hw : WF h) (hu : h[i]? = some u)
    (hp : u._promise = none) (hd : u._deps = [])
    (hf : u._fn = ExecAct.complete v) :
    (t._state ≠ TState.DONE → t.resolved = Except.error TaskError.notReady)
  ∧ __call (fuel + 1) h i =
      some (h.set i { u with
              _state := TState.DONE
              _resolved := some v
              _promise := some (some (Except.ok v)) },
            [Ev.execStart u.displayName, Ev.execDone u.displayName],
            some (Except.ok v))
  ∧ ({ u with
        _state := TState.DONE
        _resolved := some v
        _promise := some (some (Except.ok v)) } : Task V E).resolved
      = Except.ok (some v)
  ∧ (∀ (f2 : Nat) (h2 : Heap V E)
      (r : Heap V E × List Ev × Option (Except E V)) (t' : Task V E),
      __call f2 h2 i = some r → WF h2 →
      r.2.2 = some (Except.ok v) → r.1[i]? = some t' →
      t'.resolved = Except.ok (some v)) := by
  refine ⟨?_, call_leaf_complete fuel h i u v hu hp hd hf, ?_, ?_⟩
  · intro hne
    simp [resolved, isDone, hne]
  · simp [resolved, isDone]
  · intro f2 h2 r t' hrun hw2 ho ht'
    obtain ⟨u', hu', hus, hur⟩ := call_ok_done f2 h2 i r v hw2 hrun ho
    rw [ht'] at hu'
    cases hu'
    simp [resolved, isDone, hus, hur]

/-- Witness for C2: task "B" depends on leaf task "A"; the join fulfills,
"A" is DONE in the executor-start heap, and the full invocation resolves
with B's value after both executors ran in order. -/
theorem executor_starts_after_deps_done_witness :
    (∀ d, d ∈ [0] → ∃ u,
        ([(⟨"A", [], ExecAct.complete 1, TState.DONE, some 1,
             some (some (Except.ok 1))⟩ : Task Nat Nat),
          ⟨"B", [0], ExecAct.complete 2, TState.BUSY, none, none⟩] :
          Heap Nat Nat)[d]? = some u ∧ u._state = TState.DONE)
  ∧ __call 2
      [(⟨"A", [], ExecAct.complete 1, TState.IDLE, none, none⟩ : Task Nat Nat),
       ⟨"B", [0], ExecAct.complete 2, TState.IDLE, none, none⟩] 1
    = some ([⟨"A", [], ExecAct.complete 1, TState.DONE, some 1,
               some (some (Except.ok 1))⟩,
             ⟨"B", [0], ExecAct.complete 2, TState.DONE, some 2,
               some (some (Except.ok 2))⟩],
            [Ev.depsStart "B", Ev.execStart "A", Ev.execDone "A",
             Ev.depsDone "B", Ev.execStart "B", Ev.execDone "B"],
            some (Except.ok 2)) :=
  executor_starts_after_deps_done 1
    [⟨"A", [], ExecAct.complete 1, TState.IDLE, none, none⟩,
     ⟨"B", [0], ExecAct.complete 2, TState.IDLE, none, none⟩] 1
    ⟨"B", [0], ExecAct.complete 2, TState.IDLE, none, none⟩
    [⟨"A", [], ExecAct.complete 1, TState.DONE, some 1,
       some (some (Except.ok 1))⟩,
     ⟨"B", [0], ExecAct.complete 2, TState.BUSY, none, none⟩]
    [Ev.execStart "A", Ev.execDone "A"]
    (by decide) (by decide) (by decide) (by decide) (by decide)

/-- Witness for C3: "P" depends on "F" (which rejects with 7) and then "G"
(which resolves with 5); both dependencies are invoked, the handle of "P"
rejects with exactly 7, and P's own executor never runs. -/
theorem dep_failure_first_error_wins_witness :
    __call 2
      [(⟨"F", [], ExecAct.fail 7, TState.IDLE, none, none⟩ : Task Nat Nat),
       ⟨"G", [], ExecAct.complete 5, TState.IDLE, none, none⟩,
       ⟨"P", [0, 1], ExecAct.complete 9, TState.IDLE, none, none⟩] 2
    = some ([⟨"F", [], ExecAct.fail 7, TState.BUSY, none,
               some (some (Except.error 7))⟩,
             ⟨"G", [], ExecAct.complete 5, TState.DONE, some 5,
               some (some (Except.ok 5))⟩,
             ⟨"P", [0, 1], ExecAct.complete 9, TState.BUSY, none,
               some (some (Except.error 7))⟩],
            [Ev.depsStart "P", Ev.execStart "F",
             Ev.execStart "G", Ev.execDone "G"],
            some (Except.error 7)) :=
  dep_failure_first_error_wins 1
    [⟨"F", [], ExecAct.fail 7, TState.IDLE, none, none⟩,
     ⟨"G", [], ExecAct.complete 5, TState.IDLE, none, none⟩,
     ⟨"P", [0, 1], ExecAct.complete 9, TState.IDLE, none, none⟩] 2
    ⟨"P", [0, 1], ExecAct.complete 9, TState.IDLE, none, none⟩ [] [1] 0
    [⟨"F", [], ExecAct.fail 7, TState.IDLE, none, none⟩,
     ⟨"G", [], ExecAct.complete 5, TState.IDLE, none, none⟩,
     ⟨"P", [0, 1], ExecAct.complete 9, TState.BUSY, none, none⟩]
    [] Join.fulfilled
    [⟨"F", [], ExecAct.fail 7, TState.BUSY, none,
       some (some (Except.error 7))⟩,
     ⟨"G", [], ExecAct.complete 5, TState.IDLE, none, none⟩,
     ⟨"P", [0, 1], ExecAct.complete 9, TState.BUSY, none, none⟩]
    [Ev.execStart "F"] 7
    [⟨"F", [], ExecAct.fail 7, TState.BUSY, none,
       some (some (Except.error 7))⟩,
     ⟨"G", [], ExecAct.complete 5, TState.DONE, some 5,
       some (some (Except.ok 5))⟩,
     ⟨"P", [0, 1], ExecAct.complete 9, TState.BUSY, none, none⟩]
    [Ev.execStart "G", Ev.execDone "G"] Join.fulfilled
    (by decide) (by decide) (by decide) (by decide)
    (fun e' hh => Join.noConfusion hh) (by decide) (by decide)

/-- Witness for C6: parent "P" depends on failing leaf "F"; after the
invocation both tasks are BUSY with rejected handles — no state regressed
and no FAILED state exists. -/
theorem state_monotone_no_failed_witness :
    __call 2
      [(⟨"F", [], ExecAct.fail 7, TState.IDLE, none, none⟩ : Task Nat Nat),
       ⟨"P", [0], ExecAct.complete 9, TState.IDLE, none, none⟩] 1
    = some ([⟨"F", [], ExecAct.fail 7, TState.BUSY, none,
               some (some (Except.error 7))⟩,
             ⟨"P", [0], ExecAct.complete 9, TState.BUSY, none,
               some (some (Except.error 7))⟩],
            [Ev.depsStart "P", Ev.execStart "F"],
            some (Except.error 7)) :=
  (state_monotone_no_failed 0
      [⟨"F", [], ExecAct.fail 7, TState.IDLE, none, none⟩,
       ⟨"P", [0], ExecAct.complete 9, TState.IDLE, none, none⟩] 1
      (by decide)).2.2.2
    ⟨"P", [0], ExecAct.complete 9, TState.IDLE, none, none⟩
    ⟨"F", [], ExecAct.fail 7, TState.IDLE, none, none⟩ 0 7
    (by decide) (by decide) (by decide) (by decide) (by decide) (by decide)
    (by decide) (by decide)

/-- Witness for C7: an IDLE task accepts `addDep`; the task "A" after its
invocation (state DONE) rejects it. -/
theorem addDep_only_when_idle_witness :
    ((⟨"X", [], ExecAct.complete 0, TState.IDLE, none, none⟩ :
        Task Nat Nat)._state = TState.IDLE →
      (⟨"X", [], ExecAct.complete 0, TState.IDLE, none, none⟩ :
        Task Nat Nat).addDep 5
        = Except.ok ⟨"X", [5], ExecAct.complete 0, TState.IDLE, none, none⟩)
  ∧ ((⟨"X", [], ExecAct.complete 0, TState.IDLE, none, none⟩ :
        Task Nat Nat)._state ≠ TState.IDLE →
      (⟨"X", [], ExecAct.complete 0, TState.IDLE, none, none⟩ :
        Task Nat Nat).addDep 5 = Except.error TaskError.invalidState)
  ∧ (⟨"A", [], ExecAct.complete 3, TState.DONE, some 3,
       some (some (Except.ok 3))⟩ : Task Nat Nat).addDep 5
      = Except.error TaskError.invalidState :=
  addDep_only_when_idle
    ⟨"X", [], ExecAct.complete 0, TState.IDLE, none, none⟩ 5 1
    [⟨"A", [], ExecAct.complete 3, TState.IDLE, none, none⟩] 0
    ⟨"A", [], ExecAct.complete 3, TState.IDLE, none, none⟩
    ([⟨"A", [], ExecAct.complete 3, TState.DONE, some 3,
        some (some (Except.ok 3))⟩],
      [Ev.execStart "A", Ev.execDone "A"], some (Except.ok 3))
    ⟨"A", [], ExecAct.complete 3, TState.DONE, some 3,
      some (some (Except.ok 3))⟩
    (by decide) (by decide) (by decide) (by decide) (by decide)

/-- Witness for C8: a BUSY task's accessor raises the error; invoking leaf
"A" (executor completes with 7) makes it DONE and its accessor returns 7. -/
theorem resolved_guard_witness :
    ((⟨"Y", [], ExecAct.complete 0, TState.BUSY, none, some none⟩ :
        Task Nat Nat)._state ≠ TState.DONE →
      (⟨"Y", [], ExecAct.complete 0, TState.BUSY, none, some none⟩ :
        Task Nat Nat).resolved = Except.error TaskError.notReady)
  ∧ __call 1 [(⟨"A", [], ExecAct.complete 7, TState.IDLE, none, none⟩ :
        Task Nat Nat)] 0
      = some ([⟨"A", [], ExecAct.complete 7, TState.DONE, some 7,
                 some (some (Except.ok 7))⟩],
              [Ev.execStart "A", Ev.execDone "A"], some (Except.ok 7))
  ∧ (⟨"A", [], ExecAct.complete 7, TState.DONE, some 7,
       some (some (Except.ok 7))⟩ : Task Nat Nat).resolved
      = Except.ok (some 7)
  ∧ (∀ (f2 : Nat) (h2 : Heap Nat Nat)
      (r : Heap Nat Nat × List Ev × Option (Except Nat Nat))
      (t' : Task Nat Nat),
      __call f2 h2 0 = some r → WF h2 →
      r.2.2 = some (Except.ok 7) → r.1[0]? = some t' →
      t'.resolved = Except.ok (some 7)) :=
  resolved_guard
    ⟨"Y", [], ExecAct.complete 0, TState.BUSY, none, some none⟩ 0
    [⟨"A", [], ExecAct.complete 7, TState.IDLE, none, none⟩] 0
    ⟨"A", [], ExecAct.complete 7, TState.IDLE, none, none⟩ 7
    (by decide) (by decide) (by decide) (by decide) (by decide)

end Task

end P5Live
